import Mathlib

/-!
Verification development for the superwhisper archiver.

The development shallowly embeds the archiver's Python modules
(scanner.py, markdown_formatter.py, state_tracker.py, git_manager.py,
main.py) as executable Lean definitions and proves the specified
properties about them.

Modelling conventions:
- Python `str` is `String` (comparison is code-point lexicographic in
  both languages).
- Python `int` is `Int` (`Nat` for values that are counts by
  construction); Python floor division `//` and `%` on `int` are
  `Int.fdiv` / `Int.fmod`.
- `datetime.fromisoformat` is modelled by `fromisoformat` below for the
  naive (timezone-free) ISO-8601 forms that occur in this repository:
  `YYYY-MM-DD`, optionally followed by a one-character separator and
  `HH:MM`, `HH:MM:SS` or `HH:MM:SS.f{1,6}`.  `strftime` zero-padded
  numeric directives are modelled with `zfill`.
- Fallible operations (parse failures, i.e. places where the Python
  raises) return `Option`; the per-recording `try/except` boundary in
  `main.archive_recording` is an explicit `match`.
- The SQLite state store is modelled by its rows; idempotent schema
  creation (`CREATE TABLE IF NOT EXISTS`) is the identity on rows.
- Git is modelled by a commit log plus pull/push counters; the commit
  SHA returned by `GitManager.write_and_commit` is an oracle function
  parameter, `none` standing for the internally-caught failure case.
-/

/-- Value of a decimal digit character, as in code `c.toNat - 48`. -/
def charVal (c : Char) : Nat := c.toNat - 48

/-- Numeric value of a big-endian list of decimal digit characters. -/
def charsVal (l : List Char) : Nat := l.foldl (fun acc c => 10 * acc + charVal c) 0

/-- Fuel-driven core of decimal rendering (most significant digit first). -/
def decCharsCore : Nat → Nat → List Char
  | 0, _ => []
  | fuel + 1, n =>
    if n < 10 then [Nat.digitChar n]
    else decCharsCore fuel (n / 10) ++ [Nat.digitChar (n % 10)]

/-- Decimal digit characters of a natural number, as Python `str(n)`. -/
def decChars (n : Nat) : List Char := decCharsCore (n + 1) n

/-- Python `str(n)` for a natural number. -/
def natStr (n : Nat) : String := String.mk (decChars n)

/-- Python `str(i)` for an integer. -/
def intStr (i : Int) : String :=
  match i with
  | .ofNat n => natStr n
  | .negSucc n => "-" ++ natStr (n + 1)

/-- Digits of `n` left-padded with zeros to width `w`, as a char list. -/
def zfillChars (w n : Nat) : List Char :=
  List.replicate (w - (decChars n).length) '0' ++ decChars n

/-- Zero-padded decimal rendering, modelling `f-string` `{n:0wd}` and the
zero-padded `strftime` directives `%Y %m %d %H %M %S`. -/
def zfill (w n : Nat) : String := String.mk (zfillChars w n)

/-- Code-point lexicographic `≤` on char lists, Python string comparison. -/
def lexLeChars : List Char → List Char → Bool
  | [], _ => true
  | _ :: _, [] => false
  | a :: as, b :: bs =>
    if a.toNat < b.toNat then true
    else if b.toNat < a.toNat then false
    else lexLeChars as bs

/-- Python `s <= t` on strings (lexicographic by code point). -/
def strLeB (a b : String) : Bool := lexLeChars a.data b.data

/-- ASCII lower-casing of a character, adequate for the mode names this
repository compares (`str.lower`). -/
def pyLowerChar (c : Char) : Char :=
  if 65 ≤ c.toNat ∧ c.toNat ≤ 90 then Char.ofNat (c.toNat + 32) else c

/-- Python `s.lower()` (ASCII range). -/
def strLower (s : String) : String := String.mk (s.data.map pyLowerChar)

/-- Python `sep.join(parts)`. -/
def joinSep (sep : String) : List String → String
  | [] => ""
  | [x] => x
  | x :: y :: ys => x ++ sep ++ joinSep sep (y :: ys)

/-- Characters stripped by Python `str.strip()`. -/
def pySpace (c : Char) : Bool :=
  c == ' ' || c == '\t' || c == '\n' || c == '\r' || c.toNat == 11 || c.toNat == 12

/-- Python `s.strip()`. -/
def pyStrip (s : String) : String :=
  String.mk (((s.data.dropWhile pySpace).reverse.dropWhile pySpace).reverse)

/-- Truthiness of Python `Optional[str]`: `None` and `""` are falsy. -/
def strTruthyOpt : Option String → Bool
  | none => false
  | some s => s ≠ ""

/-- Helper for Python `s.split(",")`: split accumulated characters. -/
def splitCommaAux : List Char → List Char → List String
  | [], acc => [String.mk acc.reverse]
  | c :: cs, acc =>
    if c = ',' then String.mk acc.reverse :: splitCommaAux cs [] else splitCommaAux cs (c :: acc)

/-- Python `s.split(",")`. -/
def splitComma (s : String) : List String := splitCommaAux s.data []

/-- A parsed (naive) Python `datetime.datetime` value. -/
structure DateTime where
  year : Nat
  month : Nat
  day : Nat
  hour : Nat
  minute : Nat
  second : Nat
  microsecond : Nat
deriving DecidableEq

/-- Lexicographic `≤` on lists of naturals. -/
def natLexLe : List Nat → List Nat → Bool
  | [], _ => true
  | _ :: _, [] => false
  | a :: as, b :: bs =>
    if a < b then true else if b < a then false else natLexLe as bs

/-- Comparison key of a datetime, per Python tuple comparison order. -/
def DateTime.key (d : DateTime) : List Nat :=
  [d.year, d.month, d.day, d.hour, d.minute, d.second, d.microsecond]

/-- Python `d1 <= d2` on datetimes (componentwise lexicographic). -/
def dtLeB (a b : DateTime) : Bool := natLexLe a.key b.key

/-- Gregorian leap-year rule used by Python `datetime` validation. -/
def isLeapYear (y : Nat) : Bool := y % 4 == 0 && (y % 100 != 0 || y % 400 == 0)

/-- Days in a month, per Python `datetime` validation. -/
def daysInMonth (y m : Nat) : Nat :=
  match m with
  | 1 => 31
  | 2 => if isLeapYear y then 29 else 28
  | 3 => 31
  | 4 => 30
  | 5 => 31
  | 6 => 30
  | 7 => 31
  | 8 => 31
  | 9 => 30
  | 10 => 31
  | 11 => 30
  | 12 => 31
  | _ => 0

/-- Parse one decimal digit character. -/
def digVal (c : Char) : Option Nat :=
  if 48 ≤ c.toNat ∧ c.toNat ≤ 57 then some (c.toNat - 48) else none

/-- Parse a two-digit field. -/
def dig2 (a b : Char) : Option Nat := do
  let x ← digVal a
  let y ← digVal b
  pure (10 * x + y)

/-- Parse a four-digit field. -/
def dig4 (a b c d : Char) : Option Nat := do
  let x ← dig2 a b
  let y ← dig2 c d
  pure (100 * x + y)

/-- Collect decimal digit values, failing on any non-digit. -/
def digitList : List Char → Option (List Nat)
  | [] => some []
  | c :: cs => do
    let v ← digVal c
    let vs ← digitList cs
    pure (v :: vs)

/-- Fractional-second digits to microseconds: at least one digit, digits
beyond the sixth truncated, shorter runs right-padded with zeros. -/
def parseFrac (cs : List Char) : Option Nat := do
  let vs ← digitList cs
  if vs.isEmpty then none
  else
    let ds := vs.take 6
    pure (ds.foldl (fun acc v => 10 * acc + v) 0 * 10 ^ (6 - ds.length))

/-- Parse the time tail of an ISO string: empty, or one separator
character followed by `HH:MM`, `HH:MM:SS` or `HH:MM:SS` with a
fractional part introduced by a dot or comma. -/
def parseTimeRest : List Char → Option (Nat × Nat × Nat × Nat)
  | [] => some (0, 0, 0, 0)
  | _ :: h1 :: h2 :: ':' :: m1 :: m2 :: rest => do
    let hh ← dig2 h1 h2
    let mm ← dig2 m1 m2
    match rest with
    | [] => pure (hh, mm, 0, 0)
    | ':' :: s1 :: s2 :: rest2 => do
      let ss ← dig2 s1 s2
      match rest2 with
      | [] => pure (hh, mm, ss, 0)
      | '.' :: fs => do
        let us ← parseFrac fs
        pure (hh, mm, ss, us)
      | ',' :: fs => do
        let us ← parseFrac fs
        pure (hh, mm, ss, us)
      | _ => none
    | _ => none
  | _ => none

/-- Range validation performed by the `datetime` constructor. -/
def mkDateTime (y mo d h mi s us : Nat) : Option DateTime :=
  if 1 ≤ y ∧ y ≤ 9999 ∧ 1 ≤ mo ∧ mo ≤ 12 ∧ 1 ≤ d ∧ d ≤ daysInMonth y mo
     ∧ h ≤ 23 ∧ mi ≤ 59 ∧ s ≤ 59
  then some ⟨y, mo, d, h, mi, s, us⟩ else none

/-- Character-level ISO-8601 parser. -/
def fromisoformatChars : List Char → Option DateTime
  | y1 :: y2 :: y3 :: y4 :: '-' :: mo1 :: mo2 :: '-' :: d1 :: d2 :: rest =>
    match dig4 y1 y2 y3 y4, dig2 mo1 mo2, dig2 d1 d2, parseTimeRest rest with
    | some y, some mo, some d, some (h, mi, s, us) => mkDateTime y mo d h mi s us
    | _, _, _, _ => none
  | _ => none

/-- Python `datetime.fromisoformat` on the naive forms described above. -/
def fromisoformat (s : String) : Option DateTime := fromisoformatChars s.data

/-- Python `datetime.isoformat()`: microseconds omitted when zero. -/
def DateTime.isoformat (d : DateTime) : String :=
  zfill 4 d.year ++ "-" ++ zfill 2 d.month ++ "-" ++ zfill 2 d.day ++ "T"
    ++ zfill 2 d.hour ++ ":" ++ zfill 2 d.minute ++ ":" ++ zfill 2 d.second
    ++ (if d.microsecond = 0 then "" else "." ++ zfill 6 d.microsecond)

/-- Python `dt.strftime("%Y-%m-%d")`. -/
def DateTime.fmtDate (d : DateTime) : String :=
  zfill 4 d.year ++ "-" ++ zfill 2 d.month ++ "-" ++ zfill 2 d.day

/-- Python `dt.strftime("%Y-%m-%d %H:%M")`. -/
def DateTime.fmtDateHM (d : DateTime) : String :=
  d.fmtDate ++ " " ++ zfill 2 d.hour ++ ":" ++ zfill 2 d.minute

/-- Python `dt.strftime("%Y-%m-%d-%H-%M-%S")`. -/
def DateTime.pathStem (d : DateTime) : String :=
  zfill 4 d.year ++ "-" ++ zfill 2 d.month ++ "-" ++ zfill 2 d.day ++ "-"
    ++ zfill 2 d.hour ++ "-" ++ zfill 2 d.minute ++ "-" ++ zfill 2 d.second

/-- Model of `models.Segment` (the Python `end` field is `endSec` here,
since `end` is a Lean keyword; `float` offsets are modelled as `Rat`). -/
structure Segment where
  text : String
  start : Rat
  endSec : Rat
deriving DecidableEq

/-- Model of `models.Recording`, one parsed superwhisper `meta.json`. -/
structure Recording where
  source_dir : String
  datetime : String
  result : String
  rawResult : String
  duration : Int
  segments : List Segment
  modeName : String
  modelName : String
  languageSelected : String
  systemAudioEnabled : Bool
  appVersion : String
  languageModelName : Option String := none
  llmResult : Option String := none
deriving DecidableEq

/-- One immediate child of the recordings root as the scanner sees it:
its name, whether it is a directory, and the `Recording` its `meta.json`
parses to (`none` when the file is missing or malformed — both are
skipped identically by `Scanner.scan`). -/
structure DirEntry where
  name : String
  isDir : Bool
  meta : Option Recording
deriving DecidableEq

/-- The scanner's directory walk: directories whose metadata parses. -/
def parseEntries (entries : List DirEntry) : List Recording :=
  entries.filterMap (fun e => if e.isDir then e.meta else none)

/-- Mode filter of `Scanner.scan`: applied only when the list is present
and non-empty (Python truthiness of `modes`), case-insensitively. -/
def modeFilter (modes : Option (List String)) (rs : List Recording) : List Recording :=
  match modes with
  | some ms =>
    if ms.isEmpty then rs
    else rs.filter (fun r => (ms.map strLower).contains (strLower r.modeName))
  | none => rs

/-- Duration filter of `Scanner.scan`: applied only when the threshold
is positive. -/
def durationFilter (min_duration_ms : Int) (rs : List Recording) : List Recording :=
  if 0 < min_duration_ms then rs.filter (fun r => min_duration_ms ≤ r.duration) else rs

/-- Since filter of `Scanner.scan`: keeps recordings whose parsed
datetime is `>=` the bound; a recording whose datetime fails to parse
raises in Python, modelled as overall `none`. -/
def sinceFilterCore (sdt : DateTime) : List Recording → Option (List Recording)
  | [] => some []
  | r :: rs =>
    match fromisoformat r.datetime, sinceFilterCore sdt rs with
    | some d, some rest => some (if dtLeB sdt d then r :: rest else rest)
    | _, _ => none

/-- Apply the since filter when `since` is truthy; parse failure of the
bound itself raises, modelled as `none`. -/
def applySinceFilter (since : Option String) (rs : List Recording) : Option (List Recording) :=
  match since with
  | none => some rs
  | some s =>
    if s = "" then some rs
    else
      match fromisoformat s with
      | some sdt => sinceFilterCore sdt rs
      | none => none

/-- Ordering used by `recordings.sort(key=lambda r: r.datetime)`: the
datetime string compared as Python compares strings. -/
def recLe (a b : Recording) : Prop := strLeB a.datetime b.datetime = true

instance : DecidableRel recLe := fun a b => decEq (strLeB a.datetime b.datetime) true

/-- Python `list.sort` with a string key: a stable sort, which insertion
sort reproduces exactly. -/
def sortByDatetime (rs : List Recording) : List Recording := List.insertionSort recLe rs

/-- Model of `Scanner.scan`.  `rootExists` models the early return when
the recordings path does not exist; `entries` is the directory listing
in filesystem order. -/
def scan (rootExists : Bool) (entries : List DirEntry) (modes : Option (List String))
    (min_duration_ms : Int) (since : Option String) : Option (List Recording) :=
  if rootExists = false then some []
  else
    (applySinceFilter since (durationFilter min_duration_ms (modeFilter modes (parseEntries entries)))).map
      sortByDatetime

/-- Python `str(b).lower()` for a bool. -/
def pyBoolStr (b : Bool) : String := if b then "true" else "false"

/-- Frontmatter lines that do not depend on the clock — the list built
by `MarkdownFormatter._build_frontmatter` before the `archived_at` line,
including the conditional `language_model` line. -/
def frontPre (rec : Recording) : List String :=
  "---" ::
    ("datetime: \"" ++ rec.datetime ++ "\"") ::
    ("mode: " ++ rec.modeName) ::
    ("duration_ms: " ++ intStr rec.duration) ::
    ("model: \"" ++ rec.modelName ++ "\"") ::
    ((match rec.languageModelName with
      | some lm => if lm = "" then [] else ["language_model: \"" ++ lm ++ "\""]
      | none => [])
    ++ [("language: " ++ rec.languageSelected),
        ("system_audio: " ++ pyBoolStr rec.systemAudioEnabled),
        ("app_version: \"" ++ rec.appVersion ++ "\""),
        ("source_dir: \"" ++ rec.source_dir ++ "\"")])

/-- All frontmatter lines, `archived_at` stamped with the current time. -/
def frontmatterParts (rec : Recording) (now : DateTime) : List String :=
  frontPre rec ++ [("archived_at: \"" ++ now.isoformat ++ "\""), "---"]

/-- Model of `MarkdownFormatter._build_frontmatter`. -/
def build_frontmatter (rec : Recording) (now : DateTime) : String :=
  joinSep "\n" (frontmatterParts rec now) ++ "\n"

/-- Model of `MarkdownFormatter._format_duration` (Python `//` and `%`
on `int` are floor division and floor modulus). -/
def format_duration (duration_ms : Int) : String :=
  let total_seconds := duration_ms.fdiv 1000
  let hours := total_seconds.fdiv 3600
  let minutes := (total_seconds.fmod 3600).fdiv 60
  let seconds := total_seconds.fmod 60
  if 0 < hours then intStr hours ++ "h " ++ intStr minutes ++ "m " ++ intStr seconds ++ "s"
  else if 0 < minutes then intStr minutes ++ "m " ++ intStr seconds ++ "s"
  else intStr seconds ++ "s"

/-- Python `int(q)` truncation toward zero. -/
def ratTrunc (q : Rat) : Int := q.num.tdiv q.den

/-- Model of `MarkdownFormatter._format_timestamp` (`MM:SS.s`).  The
`%04.1f` float rendering is approximated by half-up rounding to one
decimal on rationals; no verified claim depends on this function. -/
def format_timestamp (seconds : Rat) : String :=
  let mins := (ratTrunc seconds).fdiv 60
  let secs : Rat := seconds - (mins * 60 : Int)
  let n10 : Nat := (⌊secs * 10⌋ + (if (2 : Rat) * (secs * 10 - ⌊secs * 10⌋) ≥ 1 then 1 else 0)).toNat
  zfill 2 mins.toNat ++ ":" ++ zfill 2 (n10 / 10) ++ "." ++ natStr (n10 % 10)

/-- The transcription text chosen by `_build_body`: the cleaned result
when `rec.result` is truthy, else the raw result, stripped. -/
def transcriptionText (rec : Recording) : String :=
  if rec.result ≠ "" then pyStrip rec.result else pyStrip rec.rawResult

/-- One segment line of the body. -/
def segmentLine (seg : Segment) : String :=
  "- [" ++ format_timestamp seg.start ++ " → " ++ format_timestamp seg.endSec ++ "] " ++ seg.text

/-- Body parts before the footer, per `_build_body`: title, summary
line, then conditional transcription, LLM summary and segment sections. -/
def bodyCoreParts (rec : Recording) (dt : DateTime) : List String :=
  ("\n# Recording — " ++ dt.fmtDateHM ++ "\n") ::
    ("**Mode**: " ++ rec.modeName ++ " | **Duration**: " ++ format_duration rec.duration ++ "\n") ::
    ((if transcriptionText rec = "" then []
      else ["## Transcription\n\n" ++ transcriptionText rec ++ "\n"])
    ++ (match rec.llmResult with
        | some lr => if lr = "" then [] else ["## Summary\n\n" ++ lr ++ "\n"]
        | none => [])
    ++ (if rec.segments.isEmpty then []
        else ["## Segments\n\n" ++ joinSep "\n" (rec.segments.map segmentLine) ++ "\n"]))

/-- The footer part, stamped with the current date. -/
def footerPart (now : DateTime) : String := "\n---\n*Archived: " ++ now.fmtDate ++ "*\n"

/-- Body of the document given the already-parsed recording datetime. -/
def build_bodyD (rec : Recording) (dt : DateTime) (now : DateTime) : String :=
  joinSep "\n" (bodyCoreParts rec dt ++ [footerPart now])

/-- Model of `MarkdownFormatter._build_body`; parsing the recording's
datetime can raise, hence `Option`. -/
def build_body (rec : Recording) (now : DateTime) : Option String :=
  (fromisoformat rec.datetime).map (fun dt => build_bodyD rec dt now)

/-- Model of `MarkdownFormatter.format_recording`: frontmatter plus
body.  `now` is the wall clock read by the two `datetime.now()` calls. -/
def format_recording (rec : Recording) (now : DateTime) : Option String :=
  (fromisoformat rec.datetime).map (fun dt => build_frontmatter rec now ++ build_bodyD rec dt now)

/-- Archive path for an already-parsed datetime, per
`MarkdownFormatter.compute_file_path`. -/
def computeFilePathD (dt : DateTime) : String :=
  zfill 4 dt.year ++ "/" ++ zfill 2 dt.month ++ "/" ++ (dt.pathStem ++ ".md")

/-- Model of `MarkdownFormatter.compute_file_path`. -/
def compute_file_path (rec : Recording) : Option String :=
  (fromisoformat rec.datetime).map computeFilePathD

/-- A row of the `archived_recordings` table of `StateTracker`. -/
structure StoreRow where
  source_dir : String
  datetime : String
  mode : String
  duration_ms : Int
  file_path : String
  commit_sha : Option String
  archived_at : String
deriving DecidableEq

/-- A row of the `archive_runs` table of `StateTracker`. -/
structure RunRow where
  run_at : String
  recordings_processed : Nat
  recordings_archived : Nat
  recordings_failed : Nat
deriving DecidableEq

/-- The state store as its rows; schema creation is the identity. -/
structure StoreState where
  archived : List StoreRow
  runs : List RunRow
deriving DecidableEq

/-- Model of `StateTracker.is_archived`: existence check on the key. -/
def is_archived (st : StoreState) (sd : String) : Bool :=
  st.archived.any (fun row => row.source_dir == sd)

/-- Model of `StateTracker.mark_archived`: `INSERT OR REPLACE` keyed on
`source_dir`, stamped with the current time. -/
def mark_archived (st : StoreState) (sd dtStr mode : String) (dur : Int) (fp : String)
    (sha : Option String) (now : DateTime) : StoreState :=
  { st with archived :=
      st.archived.filter (fun row => row.source_dir ≠ sd)
        ++ [⟨sd, dtStr, mode, dur, fp, sha, now.isoformat⟩] }

/-- The greatest `run_at` value, per `ORDER BY run_at DESC LIMIT 1`. -/
def maxRunAt (runs : List RunRow) : Option String :=
  runs.foldl
    (fun acc row =>
      match acc with
      | none => some row.run_at
      | some s => if strLeB s row.run_at then some row.run_at else some s)
    none

/-- Model of `StateTracker.update_last_run`: append one run row. -/
def update_last_run (st : StoreState) (now : DateTime) (p a f : Nat) : StoreState :=
  { st with runs := st.runs ++ [⟨now.isoformat, p, a, f⟩] }

/-- One commit of the archive repository. -/
structure Commit where
  path : String
  content : String
  message : String
  sha : String
deriving DecidableEq

/-- The archive repository: its commit log and pull/push counters. -/
structure RepoState where
  commits : List Commit
  pulls : Nat
  pushes : Nat
deriving DecidableEq

/-- The mutable world an archiver run touches. -/
structure WorldState where
  store : StoreState
  repo : RepoState
deriving DecidableEq

/-- Outcome oracle for `GitManager.write_and_commit`, a function of the
path, content and message: `some sha` on success, `none` for the
failure case the Python logs and swallows. -/
def GitOracle : Type := String → String → String → Option String

/-- Model of `GitManager.write_and_commit`: on success the commit is
appended; on failure the repository state is unchanged. -/
def write_and_commit (g : GitOracle) (repo : RepoState) (fp content msg : String) :
    Option String × RepoState :=
  match g fp content msg with
  | some sha => (some sha, { repo with commits := repo.commits ++ [⟨fp, content, msg, sha⟩] })
  | none => (none, repo)

/-- Model of `GitManager.ensure_up_to_date` (best-effort pull). -/
def ensure_up_to_date (repo : RepoState) : RepoState := { repo with pulls := repo.pulls + 1 }

/-- Model of `GitManager.push_to_remote` (best-effort push). -/
def push_to_remote (repo : RepoState) : RepoState := { repo with pushes := repo.pushes + 1 }

/-- Model of `models.ArchiveResult`. -/
structure ArchiveResult where
  success : Bool
  source_dir : String
  error : Option String := none
  file_path : Option String := none
  commit_sha : Option String := none
deriving DecidableEq

/-- Model of `models.ArchiveSummary`. -/
structure ArchiveSummary where
  total_recordings : Nat
  archived_count : Nat
  failed_count : Nat
  skipped_count : Nat
  results : List ArchiveResult
deriving DecidableEq

/-- The commit message built by `main.archive_recording`. -/
def commitMessageFor (rec : Recording) (dt : DateTime) : String :=
  "Archive: " ++ rec.modeName ++ " recording " ++ dt.fmtDateHM ++ "\n\n"
    ++ "Source: " ++ rec.source_dir ++ "\n"
    ++ "Duration: " ++ intStr rec.duration ++ "ms\n"

/-- Model of `main.archive_recording`.  The surrounding `try/except` is
the explicit failure arms: an unparseable datetime raises inside
`format_recording` (message as raised by `fromisoformat`), and a falsy
commit SHA raises `Failed to commit recording`; both are converted into
a failure result at this recording's boundary.  `mark_archived` runs
only after a truthy commit SHA was returned. -/
def archive_recording (g : GitOracle) (rec : Recording) (dry_run : Bool) (w : WorldState)
    (now : DateTime) : ArchiveResult × WorldState :=
  match fromisoformat rec.datetime with
  | none =>
    (⟨false, rec.source_dir, some ("Invalid isoformat string: " ++ rec.datetime), none, none⟩, w)
  | some dt =>
    let markdown := build_frontmatter rec now ++ build_bodyD rec dt now
    let fp := computeFilePathD dt
    if dry_run then (⟨true, rec.source_dir, none, some fp, none⟩, w)
    else
      let msg := commitMessageFor rec dt
      let shaRepo := write_and_commit g w.repo fp markdown msg
      match shaRepo.1 with
      | none =>
        (⟨false, rec.source_dir, some "Failed to commit recording", none, none⟩,
          { w with repo := shaRepo.2 })
      | some sha =>
        if sha = "" then
          (⟨false, rec.source_dir, some "Failed to commit recording", none, none⟩,
            { w with repo := shaRepo.2 })
        else
          (⟨true, rec.source_dir, none, some fp, some sha⟩,
            ⟨mark_archived w.store rec.source_dir rec.datetime rec.modeName rec.duration fp
              (some sha) now, shaRepo.2⟩)

/-- The per-candidate loop of `main.run_archiver`: already-archived
recordings are skipped, the rest go through `archive_recording`;
returns the collected results, the skip count and the final world. -/
def process_recordings (g : GitOracle) (recs : List Recording) (dry_run : Bool)
    (w : WorldState) (now : DateTime) : List ArchiveResult × Nat × WorldState :=
  match recs with
  | [] => ([], 0, w)
  | r :: rs =>
    if is_archived w.store r.source_dir then
      let rest := process_recordings g rs dry_run w now
      (rest.1, rest.2.1 + 1, rest.2.2)
    else
      let step := archive_recording g r dry_run w now
      let rest := process_recordings g rs dry_run step.2 now
      (step.1 :: rest.1, rest.2.1, rest.2.2)

/-- The filter settings of `ArchiverConfig.FiltersConfig`. -/
structure FiltersConfig where
  modes : List String
  min_duration_ms : Int
deriving DecidableEq

/-- Resolve the incremental since-bound from the last recorded run:
`none` when no run is recorded, otherwise the parsed timestamp
re-rendered with `isoformat` (the parse can raise, hence the outer
`Option`). -/
def lastRunSince (st : StoreState) : Option (Option String) :=
  match maxRunAt st.runs with
  | none => some none
  | some ra => (fromisoformat ra).map (fun d => some d.isoformat)

/-- Model of `main.run_archiver`.  `rootExists`/`entries` feed the
scanner, `cfg` is the filter configuration, and `now` is the wall
clock.  The outer `Option` is a run-aborting exception (an unparseable
stored run timestamp or since-bound, both raised by `fromisoformat`). -/
def run_archiver (g : GitOracle) (rootExists : Bool) (entries : List DirEntry)
    (cfg : FiltersConfig) (dry_run backfill : Bool) (since_date modes_override : Option String)
    (w0 : WorldState) (now : DateTime) : Option (ArchiveSummary × WorldState) :=
  let w := if dry_run then w0 else { w0 with repo := ensure_up_to_date w0.repo }
  let modes : List String :=
    match modes_override with
    | some s => if s = "" then cfg.modes else splitComma s
    | none => cfg.modes
  match (if backfill then some none
    else
      match since_date with
      | some s => if s = "" then lastRunSince w.store else some (some s)
      | none => lastRunSince w.store : Option (Option String)) with
  | none => none
  | some since =>
    match scan rootExists entries (if modes.isEmpty then none else some modes)
      cfg.min_duration_ms since with
    | none => none
    | some recs =>
      let step := process_recordings g recs dry_run w now
      let results := step.1
      let skipped := step.2.1
      let w2 := step.2.2
      let w3 :=
        if dry_run = false ∧ results.any (fun r => r.success) then
          { w2 with repo := push_to_remote w2.repo }
        else w2
      let archived := results.countP (fun r => r.success)
      let failed := results.countP (fun r => !r.success)
      let w4 :=
        if dry_run then w3
        else { w3 with store := update_last_run w3.store now recs.length archived failed }
      some (⟨recs.length, archived, failed, skipped, results⟩, w4)

/-- Spec-side mode condition: absent or empty list accepts everything,
otherwise the mode name must match case-insensitively. -/
def modePredB (modes : Option (List String)) (r : Recording) : Bool :=
  match modes with
  | some ms => ms.isEmpty || (ms.map strLower).contains (strLower r.modeName)
  | none => true

/-- Spec-side duration condition: applied only when the threshold is
positive. -/
def durPredB (min_duration_ms : Int) (r : Recording) : Bool :=
  if 0 < min_duration_ms then decide (min_duration_ms ≤ r.duration) else true

/-- Spec-side since condition: the recording's timestamp, compared as a
parsed date-time, is at or after the bound. -/
def sincePredB (sinceDT : Option DateTime) (r : Recording) : Bool :=
  match sinceDT with
  | some sdt =>
    match fromisoformat r.datetime with
    | some d => dtLeB sdt d
    | none => false
  | none => true

/-- The parsed since-bound actually in force: absent or empty bounds
impose nothing. -/
def sinceDTOf (since : Option String) : Option DateTime :=
  match since with
  | none => none
  | some s => if s = "" then none else fromisoformat s

/-- Spec-side scan condition: the claimed conjunction of the mode,
duration and since filters. -/
def scanSpecPred (modes : Option (List String)) (min_duration_ms : Int)
    (sinceDT : Option DateTime) (r : Recording) : Bool :=
  modePredB modes r && durPredB min_duration_ms r && sincePredB sinceDT r

/-- To-the-second truncation of a datetime (drops microseconds). -/
def DateTime.secKey (d : DateTime) : List Nat :=
  [d.year, d.month, d.day, d.hour, d.minute, d.second]

/-- A sample recording (fields per the repository's test fixture) with a
chosen datetime string. -/
def sampleRec (dtStr : String) : Recording :=
  { source_dir := "1770978710", datetime := dtStr, result := "Hello world. How are you?",
    rawResult := " Hello world. How are you?", duration := 13647, segments := [],
    modeName := "Meeting", modelName := "Ultra (Cloud)", languageSelected := "en",
    systemAudioEnabled := true, appVersion := "2.9.0" }

/-- A concrete clock value for witnesses. -/
def nowA : DateTime := ⟨2026, 3, 1, 12, 0, 0, 0⟩

/-- A second, different concrete clock value. -/
def nowB : DateTime := ⟨2026, 3, 2, 9, 30, 5, 0⟩

/-- An empty world (fresh store, empty repository). -/
def emptyWorld : WorldState := ⟨⟨[], []⟩, ⟨[], 0, 0⟩⟩

/-- An oracle whose commits always succeed with a fixed SHA. -/
def okOracle : GitOracle := fun _ _ _ => some "abc123"

/-- An oracle whose commits always fail. -/
def failOracle : GitOracle := fun _ _ _ => none

/-- The default filter configuration of the repository. -/
def cfgMeeting : FiltersConfig := ⟨["meeting"], 0⟩

/-- Concrete scanner entries for witnesses: mixed modes and durations, a
directory without metadata, a stray file, unsorted order, and a
datetime using the space separator. -/
def wEntries : List DirEntry :=
  [⟨"dirB", true, some { sampleRec "2026-02-14T08:00:00" with source_dir := "dirB", duration := 90000 }⟩,
   ⟨"noMeta", true, none⟩,
   ⟨"stray.txt", false, none⟩,
   ⟨"dirA", true, some { sampleRec "2026-02-13 10:31:50" with source_dir := "dirA", modeName := "meeting" }⟩,
   ⟨"dirC", true, some { sampleRec "2026-02-12T23:59:59" with source_dir := "dirC", modeName := "Default" }⟩,
   ⟨"dirD", true, some { sampleRec "2026-01-01T00:00:00" with source_dir := "dirD" }⟩]

/-- Substring occurrence on character lists (decidable form used to
state that a rendered document does not contain a section marker). -/
def startsWithChars : List Char → List Char → Bool
  | [], _ => true
  | _ :: _, [] => false
  | p :: ps, s :: ss => p == s && startsWithChars ps ss

/-- Containment of `pat` in `s` as a character-list scan. -/
def containsChars (pat : List Char) : List Char → Bool
  | [] => startsWithChars pat []
  | c :: cs => startsWithChars pat (c :: cs) || containsChars pat cs

instance : IsTotal Recording recLe where
  total := by
    have key : ∀ x y : List Char, lexLeChars x y = true ∨ lexLeChars y x = true := by
      intro x
      induction x with
      | nil => intro y; exact Or.inl rfl
      | cons a as ih =>
        intro y
        cases y with
        | nil => exact Or.inr rfl
        | cons b bs =>
          by_cases h1 : a.toNat < b.toNat
          · exact Or.inl (by simp [lexLeChars, h1])
          · by_cases h2 : b.toNat < a.toNat
            · exact Or.inr (by simp [lexLeChars, h2])
            · rcases ih bs with h | h
              · exact Or.inl (by simp [lexLeChars, h1, h2, h])
              · exact Or.inr (by simp [lexLeChars, h1, h2, h])
    intro a b
    exact key a.datetime.data b.datetime.data

instance : IsTrans Recording recLe where
  trans := by
    have key : ∀ x y z : List Char, lexLeChars x y = true → lexLeChars y z = true →
        lexLeChars x z = true := by
      intro x
      induction x with
      | nil => intro y z _ _; rfl
      | cons a as ih =>
        intro y z hxy hyz
        cases y with
        | nil => simp [lexLeChars] at hxy
        | cons b bs =>
          cases z with
          | nil => simp [lexLeChars] at hyz
          | cons c cs =>
            simp only [lexLeChars] at hxy hyz ⊢
            by_cases hab : a.toNat < b.toNat
            · by_cases hbc : b.toNat < c.toNat
              · simp [show a.toNat < c.toNat by omega]
              · by_cases hcb : c.toNat < b.toNat
                · simp [hbc, hcb] at hyz
                · simp [show a.toNat < c.toNat by omega]
            · by_cases hba : b.toNat < a.toNat
              · simp [hab, hba] at hxy
              · simp only [hab, hba, if_false, ite_false] at hxy
                by_cases hbc : b.toNat < c.toNat
                · simp [show a.toNat < c.toNat by omega]
                · by_cases hcb : c.toNat < b.toNat
                  · simp [hbc, hcb] at hyz
                  · simp only [hbc, hcb, if_false, ite_false] at hyz
                    rw [if_neg (show ¬ a.toNat < c.toNat by omega),
                      if_neg (show ¬ c.toNat < a.toNat by omega)]
                    exact ih bs cs hxy hyz
    intro a b c hab hbc
    exact key a.datetime.data b.datetime.data c.datetime.data hab hbc

theorem joinSep_cons_ne (sep x : String) {ys : List String} (h : ys ≠ []) :
    joinSep sep (x :: ys) = x ++ sep ++ joinSep sep ys := by
  cases ys with
  | nil => exact absurd rfl h
  | cons y ys => rfl

theorem joinSep_append_ne (sep : String) {xs ys : List String} (hx : xs ≠ []) (hy : ys ≠ []) :
    joinSep sep (xs ++ ys) = joinSep sep xs ++ sep ++ joinSep sep ys := by
  induction xs with
  | nil => exact absurd rfl hx
  | cons x xs ih =>
    cases xs with
    | nil =>
      show joinSep sep (x :: ys) = joinSep sep [x] ++ sep ++ joinSep sep ys
      rw [joinSep_cons_ne sep x hy]
      rfl
    | cons x2 xs2 =>
      rw [List.cons_append, joinSep_cons_ne sep x (by simp),
        joinSep_cons_ne sep x (by simp : x2 :: xs2 ≠ []), ih (by simp)]
      simp [String.append_assoc]

theorem decCharsCore_fuel_irrel : ∀ f g n, n < f → n < g → decCharsCore f n = decCharsCore g n := by
  intro f
  induction f with
  | zero => intro g n h; exact absurd h (Nat.not_lt_zero n)
  | succ f ih =>
    intro g n hf hg
    cases g with
    | zero => exact absurd hg (Nat.not_lt_zero n)
    | succ g =>
      simp only [decCharsCore]
      by_cases h10 : n < 10
      · simp [h10]
      · have div_lt := Nat.div_lt_self (show 0 < n by omega) (show 1 < 10 by omega)
        rw [if_neg h10, if_neg h10, ih g (n / 10) (by omega) (by omega)]

theorem decChars_def (n : Nat) :
    decChars n = if n < 10 then [Nat.digitChar n]
      else decChars (n / 10) ++ [Nat.digitChar (n % 10)] := by
  have step : decCharsCore (n + 1) n =
      if n < 10 then [Nat.digitChar n]
      else decCharsCore n (n / 10) ++ [Nat.digitChar (n % 10)] := rfl
  unfold decChars
  rw [step]
  by_cases h10 : n < 10
  · rw [if_pos h10, if_pos h10]
  · have div_lt := Nat.div_lt_self (show 0 < n by omega) (show 1 < 10 by omega)
    rw [if_neg h10, if_neg h10,
      decCharsCore_fuel_irrel n (n / 10 + 1) (n / 10) (by omega) (by omega)]

theorem charVal_digitChar : ∀ d < 10, charVal (Nat.digitChar d) = d := by decide

theorem charsVal_append_last (l : List Char) (c : Char) :
    charsVal (l ++ [c]) = 10 * charsVal l + charVal c := by
  simp [charsVal, List.foldl_append]

theorem charsVal_decChars : ∀ n, charsVal (decChars n) = n := by
  intro n
  induction n using Nat.strong_induction_on with
  | _ n ih =>
    rw [decChars_def]
    by_cases h10 : n < 10
    · rw [if_pos h10]
      show charsVal [Nat.digitChar n] = n
      simp [charsVal, charVal_digitChar n h10]
    · have div_lt := Nat.div_lt_self (show 0 < n by omega) (show 1 < 10 by omega)
      rw [if_neg h10, charsVal_append_last, ih (n / 10) div_lt,
        charVal_digitChar (n % 10) (by omega)]
      omega

theorem decChars_length_le : ∀ n, ∀ w, 1 ≤ w → n < 10 ^ w → (decChars n).length ≤ w := by
  intro n
  induction n using Nat.strong_induction_on with
  | _ n ih =>
    intro w hw hn
    rw [decChars_def]
    by_cases h10 : n < 10
    · rw [if_pos h10]; simpa using hw
    · have div_lt := Nat.div_lt_self (show 0 < n by omega) (show 1 < 10 by omega)
      rw [if_neg h10]
      have hw2 : 2 ≤ w := by
        rcases Nat.lt_or_ge w 2 with h | h
        · exfalso
          have hw1 : w = 1 := by omega
          rw [hw1] at hn
          simp at hn
          omega
        · exact h
      have hpow : 10 ^ w = 10 ^ (w - 1) * 10 := by
        conv_lhs => rw [show w = (w - 1) + 1 by omega]
        rw [pow_succ]
      have hdiv : n / 10 < 10 ^ (w - 1) := by
        rw [Nat.div_lt_iff_lt_mul (by omega : 0 < 10)]
        omega
      have hlen := ih (n / 10) div_lt (w - 1) (by omega) hdiv
      simp only [List.length_append, List.length_singleton]
      omega

theorem zfillChars_length {w n : Nat} (hw : 1 ≤ w) (hn : n < 10 ^ w) :
    (zfillChars w n).length = w := by
  have h := decChars_length_le n w hw hn
  simp only [zfillChars, List.length_append, List.length_replicate]
  omega

theorem charsVal_replicate_zero (k : Nat) (l : List Char) :
    charsVal (List.replicate k '0' ++ l) = charsVal l := by
  induction k with
  | zero => rfl
  | succ k ih =>
    rw [List.replicate_succ, List.cons_append]
    show charsVal ('0' :: (List.replicate k '0' ++ l)) = charsVal l
    simp only [charsVal, List.foldl_cons]
    have h0 : 10 * 0 + charVal '0' = 0 := by decide
    rw [h0]
    exact ih

theorem charsVal_zfillChars (w n : Nat) : charsVal (zfillChars w n) = n := by
  rw [zfillChars, charsVal_replicate_zero, charsVal_decChars]

theorem zfill_peel {w n m : Nat} {t1 t2 : List Char} (hw : 1 ≤ w) (hn : n < 10 ^ w)
    (hm : m < 10 ^ w) (h : zfillChars w n ++ t1 = zfillChars w m ++ t2) : n = m ∧ t1 = t2 := by
  have hlen : (zfillChars w n).length = (zfillChars w m).length := by
    rw [zfillChars_length hw hn, zfillChars_length hw hm]
  obtain ⟨h1, h2⟩ := List.append_inj h hlen
  refine ⟨?_, h2⟩
  have := congrArg charsVal h1
  rwa [charsVal_zfillChars, charsVal_zfillChars] at this

theorem intStr_natCast (n : Nat) : intStr (n : Int) = natStr n := rfl

/-- C2: for every non-negative duration d (milliseconds), the duration
string is "Ns" when d < 60000, "Mm Ss" when 60000 <= d < 3600000, and
"Hh Mm Ss" otherwise, with the whole-second, minute and hour remainders
computed correctly. -/
theorem duration_format_spec (n : Nat) :
    (n < 60000 → format_duration (n : Int) = natStr (n / 1000) ++ "s")
  ∧ (60000 ≤ n → n < 3600000 →
      format_duration (n : Int) =
        natStr (n / 60000) ++ "m " ++ natStr (n / 1000 % 60) ++ "s")
  ∧ (3600000 ≤ n →
      format_duration (n : Int) =
        natStr (n / 3600000) ++ "h " ++ natStr (n / 60000 % 60) ++ "m "
          ++ natStr (n / 1000 % 60) ++ "s") := by
  have e1 : (n : Int).fdiv 1000 = ((n / 1000 : Nat) : Int) := (Int.ofNat_fdiv n 1000).symm
  have e2 : ((n / 1000 : Nat) : Int).fdiv 3600 = ((n / 1000 / 3600 : Nat) : Int) :=
    (Int.ofNat_fdiv _ _).symm
  have e3 : ((n / 1000 : Nat) : Int).fmod 3600 = ((n / 1000 % 3600 : Nat) : Int) :=
    (Int.ofNat_fmod _ _).symm
  have e4 : ((n / 1000 % 3600 : Nat) : Int).fdiv 60 = ((n / 1000 % 3600 / 60 : Nat) : Int) :=
    (Int.ofNat_fdiv _ _).symm
  have e5 : ((n / 1000 : Nat) : Int).fmod 60 = ((n / 1000 % 60 : Nat) : Int) :=
    (Int.ofNat_fmod _ _).symm
  refine ⟨?_, ?_, ?_⟩
  · intro hlt
    simp only [format_duration, e1, e2, e3, e4, e5]
    rw [if_neg (show ¬ (0 : Int) < ((n / 1000 / 3600 : Nat) : Int) by
        simp only [Int.natCast_pos]; omega),
      if_neg (show ¬ (0 : Int) < ((n / 1000 % 3600 / 60 : Nat) : Int) by
        simp only [Int.natCast_pos]; omega),
      intStr_natCast, show n / 1000 % 60 = n / 1000 by omega]
  · intro hge hlt
    simp only [format_duration, e1, e2, e3, e4, e5]
    rw [if_neg (show ¬ (0 : Int) < ((n / 1000 / 3600 : Nat) : Int) by
        simp only [Int.natCast_pos]; omega),
      if_pos (show (0 : Int) < ((n / 1000 % 3600 / 60 : Nat) : Int) by
        simp only [Int.natCast_pos]; omega),
      intStr_natCast, intStr_natCast, show n / 1000 % 3600 / 60 = n / 60000 by omega]
  · intro hge
    simp only [format_duration, e1, e2, e3, e4, e5]
    rw [if_pos (show (0 : Int) < ((n / 1000 / 3600 : Nat) : Int) by
        simp only [Int.natCast_pos]; omega),
      intStr_natCast, intStr_natCast, intStr_natCast,
      show n / 1000 / 3600 = n / 3600000 by omega,
      show n / 1000 % 3600 / 60 = n / 60000 % 60 by omega]

/-- Witness for C2 at the two spec examples. -/
theorem duration_format_witness :
    format_duration ((90000 : Nat) : Int) = "1m 30s"
  ∧ format_duration ((3723000 : Nat) : Int) = "1h 2m 3s" :=
  ⟨((duration_format_spec 90000).2.1 (by omega) (by omega)).trans rfl,
   ((duration_format_spec 3723000).2.2 (by omega)).trans rfl⟩

/-- C3: for every recording with a parseable timestamp, the computed
archive path is the zero-padded `YYYY/MM/YYYY-MM-DD-HH-MM-SS.md`
derived solely from the parsed timestamp (so it is deterministic), and
the two spec examples compute as stated. -/
theorem compute_file_path_spec :
    (∀ (rec : Recording) (dt : DateTime), fromisoformat rec.datetime = some dt →
      compute_file_path rec = some (zfill 4 dt.year ++ "/" ++ zfill 2 dt.month ++ "/"
        ++ (zfill 4 dt.year ++ "-" ++ zfill 2 dt.month ++ "-" ++ zfill 2 dt.day ++ "-"
          ++ zfill 2 dt.hour ++ "-" ++ zfill 2 dt.minute ++ "-" ++ zfill 2 dt.second ++ ".md")))
  ∧ (∀ r1 r2 : Recording, r1.datetime = r2.datetime →
      compute_file_path r1 = compute_file_path r2)
  ∧ compute_file_path (sampleRec "2026-02-13T10:31:50") = some "2026/02/2026-02-13-10-31-50.md"
  ∧ compute_file_path (sampleRec "2026-01-05T23:59:01") = some "2026/01/2026-01-05-23-59-01.md" := by
  refine ⟨?_, ?_, by decide, by decide⟩
  · intro rec dt h
    simp only [compute_file_path, h, Option.map_some']
    rfl
  · intro r1 r2 h
    simp only [compute_file_path, h]

/-- Witness for C3: the general shape applied at a concrete parse. -/
theorem compute_file_path_witness :
    fromisoformat (sampleRec "2026-02-13T10:31:50").datetime
      = some ⟨2026, 2, 13, 10, 31, 50, 0⟩
  ∧ compute_file_path (sampleRec "2026-02-13T10:31:50")
      = some (zfill 4 2026 ++ "/" ++ zfill 2 2 ++ "/"
        ++ (zfill 4 2026 ++ "-" ++ zfill 2 2 ++ "-" ++ zfill 2 13 ++ "-"
          ++ zfill 2 10 ++ "-" ++ zfill 2 31 ++ "-" ++ zfill 2 50 ++ ".md")) :=
  ⟨rfl, compute_file_path_spec.1 (sampleRec "2026-02-13T10:31:50") ⟨2026, 2, 13, 10, 31, 50, 0⟩ rfl⟩

theorem data_mk (l : List Char) : (String.mk l).data = l := rfl

theorem daysInMonth_le (y m : Nat) : daysInMonth y m ≤ 31 := by
  unfold daysInMonth
  split <;> first | omega | (split <;> omega)

theorem mkDateTime_some {y mo d h mi s us : Nat} {dt : DateTime}
    (hmk : mkDateTime y mo d h mi s us = some dt) :
    dt = ⟨y, mo, d, h, mi, s, us⟩ ∧ 1 ≤ y ∧ y ≤ 9999 ∧ 1 ≤ mo ∧ mo ≤ 12 ∧ 1 ≤ d ∧ d ≤ 31
      ∧ h ≤ 23 ∧ mi ≤ 59 ∧ s ≤ 59 := by
  unfold mkDateTime at hmk
  split at hmk
  · rename_i hcond
    have hd31 : d ≤ 31 := le_trans hcond.2.2.2.2.2.1 (daysInMonth_le y mo)
    exact ⟨(Option.some.inj hmk).symm, hcond.1, hcond.2.1, hcond.2.2.1, hcond.2.2.2.1,
      hcond.2.2.2.2.1, hd31, hcond.2.2.2.2.2.2.1, hcond.2.2.2.2.2.2.2.1, hcond.2.2.2.2.2.2.2.2⟩
  · exact absurd hmk (by simp)

theorem fromisoformat_bounds {str : String} {dt : DateTime} (h : fromisoformat str = some dt) :
    1 ≤ dt.year ∧ dt.year ≤ 9999 ∧ 1 ≤ dt.month ∧ dt.month ≤ 12 ∧ 1 ≤ dt.day ∧ dt.day ≤ 31
      ∧ dt.hour ≤ 23 ∧ dt.minute ≤ 59 ∧ dt.second ≤ 59 := by
  unfold fromisoformat fromisoformatChars at h
  split at h
  · split at h
    · obtain ⟨hdt, hb⟩ := mkDateTime_some h
      subst hdt
      exact hb
    · exact absurd h (by simp)
  · exact absurd h (by simp)

theorem computeFilePathD_inj {d1 d2 : DateTime}
    (b1 : 1 ≤ d1.year ∧ d1.year ≤ 9999 ∧ 1 ≤ d1.month ∧ d1.month ≤ 12 ∧ 1 ≤ d1.day
      ∧ d1.day ≤ 31 ∧ d1.hour ≤ 23 ∧ d1.minute ≤ 59 ∧ d1.second ≤ 59)
    (b2 : 1 ≤ d2.year ∧ d2.year ≤ 9999 ∧ 1 ≤ d2.month ∧ d2.month ≤ 12 ∧ 1 ≤ d2.day
      ∧ d2.day ≤ 31 ∧ d2.hour ≤ 23 ∧ d2.minute ≤ 59 ∧ d2.second ≤ 59)
    (h : computeFilePathD d1 = computeFilePathD d2) : d1.secKey = d2.secKey := by
  have pow4 : (10 : Nat) ^ 4 = 10000 := by norm_num
  have pow2 : (10 : Nat) ^ 2 = 100 := by norm_num
  have hd := congrArg String.data h
  simp only [computeFilePathD, DateTime.pathStem, zfill, String.data_append, data_mk,
    List.append_assoc] at hd
  obtain ⟨hy, hd⟩ := zfill_peel (by omega) (by omega : d1.year < 10 ^ 4)
    (by omega : d2.year < 10 ^ 4) hd
  simp only [show ("/" : String).data = ['/'] from rfl, List.singleton_append,
    List.cons.injEq, true_and] at hd
  obtain ⟨hmo, hd⟩ := zfill_peel (by omega) (by omega : d1.month < 10 ^ 2)
    (by omega : d2.month < 10 ^ 2) hd
  simp only [List.cons.injEq, true_and] at hd
  obtain ⟨-, hd⟩ := zfill_peel (by omega) (by omega : d1.year < 10 ^ 4)
    (by omega : d2.year < 10 ^ 4) hd
  simp only [show ("-" : String).data = ['-'] from rfl, List.singleton_append,
    List.cons.injEq, true_and] at hd
  obtain ⟨-, hd⟩ := zfill_peel (by omega) (by omega : d1.month < 10 ^ 2)
    (by omega : d2.month < 10 ^ 2) hd
  simp only [List.cons.injEq, true_and] at hd
  obtain ⟨hday, hd⟩ := zfill_peel (by omega) (by omega : d1.day < 10 ^ 2)
    (by omega : d2.day < 10 ^ 2) hd
  simp only [List.cons.injEq, true_and] at hd
  obtain ⟨hh, hd⟩ := zfill_peel (by omega) (by omega : d1.hour < 10 ^ 2)
    (by omega : d2.hour < 10 ^ 2) hd
  simp only [List.cons.injEq, true_and] at hd
  obtain ⟨hmi, hd⟩ := zfill_peel (by omega) (by omega : d1.minute < 10 ^ 2)
    (by omega : d2.minute < 10 ^ 2) hd
  simp only [List.cons.injEq, true_and] at hd
  obtain ⟨hs, -⟩ := zfill_peel (by omega) (by omega : d1.second < 10 ^ 2)
    (by omega : d2.second < 10 ^ 2) hd
  simp [DateTime.secKey, hy, hmo, hday, hh, hmi, hs]

/-- C9 (amended): the archive path is a deterministic function of the
parsed timestamp, and two parseable recordings collide on file path
exactly when their timestamps agree to the second; timestamps that
differ only in sub-second precision do collide. -/
theorem file_path_collision_iff {r1 r2 : Recording} {d1 d2 : DateTime} {p1 p2 : String}
    (h1 : fromisoformat r1.datetime = some d1) (h2 : fromisoformat r2.datetime = some d2)
    (hp1 : compute_file_path r1 = some p1) (hp2 : compute_file_path r2 = some p2) :
    p1 = p2 ↔ d1.secKey = d2.secKey := by
  have e1 : p1 = computeFilePathD d1 := by
    rw [compute_file_path, h1, Option.map_some'] at hp1
    exact (Option.some.inj hp1).symm
  have e2 : p2 = computeFilePathD d2 := by
    rw [compute_file_path, h2, Option.map_some'] at hp2
    exact (Option.some.inj hp2).symm
  subst e1; subst e2
  constructor
  · intro h
    exact computeFilePathD_inj (fromisoformat_bounds h1) (fromisoformat_bounds h2) h
  · intro h
    simp only [DateTime.secKey, List.cons.injEq, and_true] at h
    obtain ⟨hy, hmo, hd, hh, hmi, hs⟩ := h
    simp [computeFilePathD, DateTime.pathStem, hy, hmo, hd, hh, hmi, hs]

/-- Counterexample to C9 as stated: two recordings with distinct
timestamps — distinct as strings and as parsed date-times (they differ
in sub-second precision) — whose computed file paths coincide. -/
theorem file_path_collision_counterexample :
    (sampleRec "2026-02-13T10:31:50.1").datetime ≠ (sampleRec "2026-02-13T10:31:50.9").datetime
  ∧ fromisoformat (sampleRec "2026-02-13T10:31:50.1").datetime
      ≠ fromisoformat (sampleRec "2026-02-13T10:31:50.9").datetime
  ∧ compute_file_path (sampleRec "2026-02-13T10:31:50.1")
      = compute_file_path (sampleRec "2026-02-13T10:31:50.9") :=
  ⟨by decide, by decide, by decide⟩

/-- Witness for C9: recordings one second apart receive distinct paths. -/
theorem file_path_collision_witness :
    compute_file_path (sampleRec "2026-02-13T10:31:50.1")
      ≠ compute_file_path (sampleRec "2026-02-13T10:31:51") := by
  intro hcontra
  have h1 : fromisoformat (sampleRec "2026-02-13T10:31:50.1").datetime
      = some ⟨2026, 2, 13, 10, 31, 50, 100000⟩ := rfl
  have h2 : fromisoformat (sampleRec "2026-02-13T10:31:51").datetime
      = some ⟨2026, 2, 13, 10, 31, 51, 0⟩ := rfl
  have hp1 : compute_file_path (sampleRec "2026-02-13T10:31:50.1")
      = some "2026/02/2026-02-13-10-31-50.md" := by decide
  have hp2 : compute_file_path (sampleRec "2026-02-13T10:31:51")
      = some "2026/02/2026-02-13-10-31-51.md" := by decide
  rw [hp1, hp2] at hcontra
  have hkey := (file_path_collision_iff h1 h2 hp1 hp2).mp (Option.some.inj hcontra)
  exact absurd hkey (by decide)

theorem modeFilter_eq (modes : Option (List String)) (rs : List Recording) :
    modeFilter modes rs = rs.filter (modePredB modes) := by
  cases modes with
  | none =>
    show rs = rs.filter (modePredB none)
    exact (List.filter_eq_self.mpr (fun a _ => rfl)).symm
  | some ms =>
    show (if ms.isEmpty then rs
        else rs.filter (fun r => (ms.map strLower).contains (strLower r.modeName)))
      = rs.filter (modePredB (some ms))
    by_cases he : ms.isEmpty
    · rw [if_pos he]
      exact (List.filter_eq_self.mpr (fun a _ => by simp [modePredB, he])).symm
    · rw [if_neg he]
      exact List.filter_congr (fun x _ => by simp [modePredB, he])

theorem durationFilter_eq (m : Int) (rs : List Recording) :
    durationFilter m rs = rs.filter (durPredB m) := by
  unfold durationFilter
  by_cases h : 0 < m
  · rw [if_pos h]
    exact List.filter_congr (fun x _ => by simp [durPredB, h])
  · rw [if_neg h]
    exact (List.filter_eq_self.mpr (fun a _ => by simp [durPredB, h])).symm

theorem sinceFilterCore_some {sdt : DateTime} :
    ∀ {rs out : List Recording}, sinceFilterCore sdt rs = some out →
      out = rs.filter (fun r => sincePredB (some sdt) r) := by
  intro rs
  induction rs with
  | nil =>
    intro out h
    simp only [sinceFilterCore] at h
    rw [List.filter_nil]
    exact (Option.some.inj h).symm
  | cons r rs ih =>
    intro out h
    simp only [sinceFilterCore] at h
    split at h
    · rename_i d rest hfd hrest
      have hr := ih hrest
      subst hr
      have hout := (Option.some.inj h).symm
      subst hout
      simp [List.filter_cons, sincePredB, hfd]
    · exact absurd h (by simp)

theorem applySinceFilter_some {since : Option String} {rs out : List Recording}
    (h : applySinceFilter since rs = some out) :
    out = rs.filter (fun r => sincePredB (sinceDTOf since) r) := by
  cases since with
  | none =>
    have hout : rs = out := Option.some.inj h
    subst hout
    simp [sinceDTOf, sincePredB]
  | some s =>
    have h2 : (if s = "" then some rs
        else match fromisoformat s with
          | some sdt => sinceFilterCore sdt rs
          | none => none) = some out := h
    by_cases hs : s = ""
    · rw [if_pos hs] at h2
      have hout : rs = out := Option.some.inj h2
      subst hout
      simp [sinceDTOf, hs, sincePredB]
    · rw [if_neg hs] at h2
      split at h2
      · rename_i sdt hsdt
        have h3 := sinceFilterCore_some h2
        simpa [sinceDTOf, hs, hsdt] using h3
      · exact absurd h2 (by simp)

theorem scan_some_eq {entries : List DirEntry} {modes : Option (List String)} {mdur : Int}
    {since : Option String} {out : List Recording}
    (h : scan true entries modes mdur since = some out) :
    out = sortByDatetime ((((parseEntries entries).filter (modePredB modes)).filter
      (durPredB mdur)).filter (fun r => sincePredB (sinceDTOf since) r)) := by
  unfold scan at h
  rw [if_neg (by simp)] at h
  cases happ : applySinceFilter since (durationFilter mdur (modeFilter modes (parseEntries entries))) with
  | none => rw [happ] at h; simp at h
  | some mid =>
    rw [happ, Option.map_some'] at h
    have hmid := applySinceFilter_some happ
    rw [modeFilter_eq, durationFilter_eq] at hmid
    have hout := (Option.some.inj h).symm
    subst hout
    rw [hmid]

/-- C1: whenever `Scanner.scan` returns, its result is exactly the
parsed recordings (directories without parseable metadata silently
dropped, all of them when the root is missing) that pass the
case-insensitive mode filter (no-op for an absent or empty mode list),
the minimum-duration filter (applied only for a positive threshold) and
the inclusive since filter compared on parsed date-times, and the
result is sorted ascending by the recordings' datetime strings
regardless of directory order. -/
theorem scan_spec {rootExists : Bool} {entries : List DirEntry} {modes : Option (List String)}
    {mdur : Int} {since : Option String} {out : List Recording}
    (h : scan rootExists entries modes mdur since = some out) :
    out.Perm ((parseEntries (if rootExists then entries else [])).filter
      (scanSpecPred modes mdur (sinceDTOf since)))
  ∧ List.Sorted recLe out := by
  cases rootExists with
  | false =>
    unfold scan at h
    rw [if_pos rfl] at h
    have hout := (Option.some.inj h).symm
    subst hout
    simp [parseEntries]
  | true =>
    have he := scan_some_eq h
    subst he
    refine ⟨?_, List.sorted_insertionSort recLe _⟩
    refine (List.perm_insertionSort recLe _).trans ?_
    rw [List.filter_filter, List.filter_filter]
    rw [List.filter_congr (fun x _ => show _ = scanSpecPred modes mdur (sinceDTOf since) x by
      unfold scanSpecPred
      cases hm : modePredB modes x <;> cases hd : durPredB mdur x <;>
        cases hs : sincePredB (sinceDTOf since) x <;> simp [hm, hd, hs])]
    simp

/-- Witness for C1 on a concrete directory listing: four parsed
recordings with mixed modes, one metadata-less directory and one stray
file; the since bound excludes one recording, the mode filter excludes
another (case-insensitively), and the output is the filtered set sorted
by datetime string even though the space-separated datetime sorts
before the `T`-separated one. -/
theorem scan_spec_witness :
    List.Perm
      [{ sampleRec "2026-02-13 10:31:50" with source_dir := "dirA", modeName := "meeting" },
       { sampleRec "2026-02-14T08:00:00" with source_dir := "dirB", duration := 90000 }]
      ((parseEntries (if true then wEntries else [])).filter
        (scanSpecPred (some ["Meeting"]) 0 (sinceDTOf (some "2026-01-15T00:00:00"))))
  ∧ List.Sorted recLe
      [{ sampleRec "2026-02-13 10:31:50" with source_dir := "dirA", modeName := "meeting" },
       { sampleRec "2026-02-14T08:00:00" with source_dir := "dirB", duration := 90000 }] :=
  scan_spec (by decide)

theorem build_frontmatter_decomp (rec : Recording) (now : DateTime) :
    build_frontmatter rec now
      = (joinSep "\n" (frontPre rec) ++ "\n" ++ "archived_at: \"") ++ now.isoformat
        ++ ("\"" ++ "\n" ++ "---" ++ "\n") := by
  unfold build_frontmatter frontmatterParts
  rw [joinSep_append_ne "\n" (by simp [frontPre]) (List.cons_ne_nil _ _)]
  simp only [joinSep, String.append_assoc]

theorem build_bodyD_decomp (rec : Recording) (dt now : DateTime) :
    build_bodyD rec dt now
      = joinSep "\n" (bodyCoreParts rec dt) ++ "\n"
        ++ ("\n---\n*Archived: " ++ now.fmtDate ++ "*\n") := by
  unfold build_bodyD footerPart
  rw [joinSep_append_ne "\n" (by simp [bodyCoreParts]) (List.cons_ne_nil _ _)]
  simp only [joinSep, String.append_assoc]

/-- C4 (amended): `format_recording` is deterministic given the
Recording together with the wall-clock instant read by
`datetime.now()`, and the clock enters the output only through the
`archived_at` frontmatter value and the archived-date footer: the
outputs at any two instants share one decomposition `a ++ time ++ b ++
date ++ c` with `a`, `b`, `c` depending on the recording alone.  (The
claim as stated — identical output at any two call times — is refuted
by `format_recording_now_counterexample`.) -/
theorem format_recording_time_dependence (rec : Recording) (dt : DateTime)
    (h : fromisoformat rec.datetime = some dt) (t1 t2 : DateTime) :
    ∃ a b c : String,
      format_recording rec t1 = some (a ++ t1.isoformat ++ b ++ t1.fmtDate ++ c)
    ∧ format_recording rec t2 = some (a ++ t2.isoformat ++ b ++ t2.fmtDate ++ c) := by
  refine ⟨joinSep "\n" (frontPre rec) ++ "\n" ++ "archived_at: \"",
    "\"" ++ "\n" ++ "---" ++ "\n"
      ++ (joinSep "\n" (bodyCoreParts rec dt) ++ "\n" ++ "\n---\n*Archived: "),
    "*\n", ?_, ?_⟩
  all_goals
    simp only [format_recording, h, Option.map_some', Option.some.injEq]
    rw [build_frontmatter_decomp, build_bodyD_decomp]
    simp only [String.append_assoc]

set_option maxRecDepth 4000 in
/-- Counterexample to C4 as stated: the same recording formatted at two
different wall-clock instants yields different document text. -/
theorem format_recording_now_counterexample :
    format_recording (sampleRec "2026-02-13T10:31:50") nowA
      ≠ format_recording (sampleRec "2026-02-13T10:31:50") nowB := by decide

/-- Witness for the amended C4 at a concrete recording and two concrete
instants. -/
theorem format_recording_time_dependence_witness :
    ∃ a b c : String,
      format_recording (sampleRec "2026-02-13T10:31:50") nowA
        = some (a ++ nowA.isoformat ++ b ++ nowA.fmtDate ++ c)
    ∧ format_recording (sampleRec "2026-02-13T10:31:50") nowB
        = some (a ++ nowB.isoformat ++ b ++ nowB.fmtDate ++ c) :=
  format_recording_time_dependence (sampleRec "2026-02-13T10:31:50")
    ⟨2026, 2, 13, 10, 31, 50, 0⟩ rfl nowA nowB

theorem startsWithChars_append (p rest : List Char) : startsWithChars p (p ++ rest) = true := by
  induction p with
  | nil => rfl
  | cons c cs ih => simp [startsWithChars, ih]

theorem containsChars_of_startsWith {p l : List Char} (h : startsWithChars p l = true) :
    containsChars p l = true := by
  cases l with
  | nil => exact h
  | cons c cs => simp [containsChars, h]

theorem containsChars_append3 : ∀ (a p b : List Char), containsChars p (a ++ (p ++ b)) = true := by
  intro a
  induction a with
  | nil => intro p b; exact containsChars_of_startsWith (startsWithChars_append p b)
  | cons x a ih => intro p b; simp [containsChars, ih p b]

theorem contains_of_eq_append {s a p b : String} (h : s = a ++ (p ++ b)) :
    containsChars p.data s.data = true := by
  subst h
  simp only [String.data_append]
  exact containsChars_append3 a.data p.data b.data

/-- Counterexample to C5 as stated: a recording whose result and raw
text are both empty produces a body with no transcription section at
all (the section marker does not occur in the document). -/
theorem transcription_counterexample :
    ¬ ∃ a b : String,
      build_body { sampleRec "2026-02-13T10:31:50" with result := "", rawResult := "" } nowA
        = some (a ++ ("## Transcription" ++ b)) := by
  intro h
  obtain ⟨a, b, hab⟩ := h
  have hmap : (build_body { sampleRec "2026-02-13T10:31:50" with result := "", rawResult := "" }
      nowA).map (fun s => containsChars ("## Transcription" : String).data s.data)
      = some false := by decide
  rw [hab, Option.map_some'] at hmap
  have hfalse := Option.some.inj hmap
  have htrue := contains_of_eq_append
    (rfl : a ++ ("## Transcription" ++ b) = a ++ ("## Transcription" ++ b))
  exact absurd (hfalse.symm.trans htrue) (by decide)

/-- C5 (amended): whenever the chosen transcription text — the stripped
result when `result` is non-empty, otherwise the stripped raw text —
is itself non-empty, the body contains the transcription section with
exactly that text; when the chosen text is empty the section is
omitted (see `transcription_counterexample`). -/
theorem transcription_section_spec (rec : Recording) (dt now : DateTime)
    (h : fromisoformat rec.datetime = some dt) (hne : transcriptionText rec ≠ "") :
    ∃ a b : String, build_body rec now
      = some (a ++ ("## Transcription\n\n" ++ transcriptionText rec ++ "\n") ++ b) := by
  refine ⟨("\n# Recording — " ++ dt.fmtDateHM ++ "\n") ++ "\n"
      ++ ("**Mode**: " ++ rec.modeName ++ " | **Duration**: "
        ++ format_duration rec.duration ++ "\n") ++ "\n",
    "\n" ++ joinSep "\n"
      (((match rec.llmResult with
        | some lr => if lr = "" then [] else ["## Summary\n\n" ++ lr ++ "\n"]
        | none => [])
      ++ (if rec.segments.isEmpty then []
          else ["## Segments\n\n" ++ joinSep "\n" (rec.segments.map segmentLine) ++ "\n"]))
      ++ [footerPart now]), ?_⟩
  simp only [build_body, h, Option.map_some', Option.some.injEq]
  unfold build_bodyD bodyCoreParts
  rw [if_neg hne]
  simp only [List.cons_append, List.append_assoc, List.singleton_append]
  rw [joinSep_cons_ne "\n" _ (List.cons_ne_nil _ _),
    joinSep_cons_ne "\n" _ (List.cons_ne_nil _ _),
    joinSep_cons_ne "\n" _ (by simp)]
  simp only [String.append_assoc, List.append_assoc, List.nil_append]

/-- Witness for the amended C5 at a concrete recording with a non-empty
result text. -/
theorem transcription_section_witness :
    ∃ a b : String, build_body (sampleRec "2026-02-13T10:31:50") nowA
      = some (a ++ ("## Transcription\n\n" ++ transcriptionText (sampleRec "2026-02-13T10:31:50")
        ++ "\n") ++ b) :=
  transcription_section_spec (sampleRec "2026-02-13T10:31:50") ⟨2026, 2, 13, 10, 31, 50, 0⟩
    nowA rfl (by decide)

theorem archive_recording_parse_fail {g : GitOracle} {rec : Recording} {dry : Bool}
    {w : WorldState} {now : DateTime} (hf : fromisoformat rec.datetime = none) :
    archive_recording g rec dry w now
      = (⟨false, rec.source_dir, some ("Invalid isoformat string: " ++ rec.datetime),
          none, none⟩, w) := by
  unfold archive_recording
  rw [hf]

theorem archive_recording_dry {g : GitOracle} {rec : Recording} {w : WorldState}
    {now dt : DateTime} (hf : fromisoformat rec.datetime = some dt) :
    archive_recording g rec true w now
      = (⟨true, rec.source_dir, none, some (computeFilePathD dt), none⟩, w) := by
  unfold archive_recording
  simp only [hf]
  simp

theorem archive_recording_commit_fail {g : GitOracle} {rec : Recording} {w : WorldState}
    {now dt : DateTime} (hf : fromisoformat rec.datetime = some dt)
    (hg : g (computeFilePathD dt) (build_frontmatter rec now ++ build_bodyD rec dt now)
      (commitMessageFor rec dt) = none) :
    archive_recording g rec false w now
      = (⟨false, rec.source_dir, some "Failed to commit recording", none, none⟩, w) := by
  unfold archive_recording write_and_commit
  simp only [hf, hg]
  simp

theorem archive_recording_commit_ok {g : GitOracle} {rec : Recording} {w : WorldState}
    {now dt : DateTime} {sha : String} (hf : fromisoformat rec.datetime = some dt)
    (hg : g (computeFilePathD dt) (build_frontmatter rec now ++ build_bodyD rec dt now)
      (commitMessageFor rec dt) = some sha) (hsha : sha ≠ "") :
    archive_recording g rec false w now
      = (⟨true, rec.source_dir, none, some (computeFilePathD dt), some sha⟩,
         ⟨mark_archived w.store rec.source_dir rec.datetime rec.modeName rec.duration
            (computeFilePathD dt) (some sha) now,
          { w.repo with commits := w.repo.commits
              ++ [⟨computeFilePathD dt, build_frontmatter rec now ++ build_bodyD rec dt now,
                   commitMessageFor rec dt, sha⟩] }⟩) := by
  unfold archive_recording write_and_commit
  simp only [hf, hg]
  simp [hsha]

theorem process_length (g : GitOracle) (recs : List Recording) (dry : Bool) (w : WorldState)
    (now : DateTime) :
    (process_recordings g recs dry w now).1.length + (process_recordings g recs dry w now).2.1
      = recs.length := by
  induction recs generalizing w with
  | nil => simp [process_recordings]
  | cons r rs ih =>
    simp only [process_recordings]
    by_cases hA : is_archived w.store r.source_dir = true
    · rw [if_pos hA]
      have h2 := ih w
      simp only [List.length_cons]
      omega
    · rw [if_neg hA]
      have h2 := ih (archive_recording g r dry w now).2
      simp only [List.length_cons]
      omega

theorem archive_recording_error_msg (g : GitOracle) (rec : Recording) (dry : Bool)
    (w : WorldState) (now : DateTime) :
    (archive_recording g rec dry w now).1.success = false →
      (archive_recording g rec dry w now).1.error ≠ none := by
  intro hfail
  cases hf : fromisoformat rec.datetime with
  | none => rw [archive_recording_parse_fail hf]; simp
  | some dt =>
    cases dry with
    | true => rw [archive_recording_dry hf] at hfail; simp at hfail
    | false =>
      cases hg : g (computeFilePathD dt) (build_frontmatter rec now ++ build_bodyD rec dt now)
          (commitMessageFor rec dt) with
      | none => rw [archive_recording_commit_fail hf hg]; simp
      | some sha =>
        by_cases hsha : sha = ""
        · subst hsha
          unfold archive_recording write_and_commit
          simp only [hf, hg]
          simp
        · rw [archive_recording_commit_ok hf hg hsha] at hfail
          simp at hfail

theorem process_results_error (g : GitOracle) (recs : List Recording) (dry : Bool)
    (w : WorldState) (now : DateTime) :
    ∀ res ∈ (process_recordings g recs dry w now).1, res.success = false → res.error ≠ none := by
  induction recs generalizing w with
  | nil => intro res h; simp [process_recordings] at h
  | cons r rs ih =>
    intro res hres
    simp only [process_recordings] at hres
    by_cases hA : is_archived w.store r.source_dir = true
    · rw [if_pos hA] at hres
      exact ih w res hres
    · rw [if_neg hA] at hres
      rcases List.mem_cons.mp hres with hres | hres
      · subst hres
        exact archive_recording_error_msg g r dry w now
      · exact ih (archive_recording g r dry w now).2 res hres

theorem archive_recording_dry_world (g : GitOracle) (rec : Recording) (w : WorldState)
    (now : DateTime) : (archive_recording g rec true w now).2 = w := by
  cases hf : fromisoformat rec.datetime with
  | none => rw [archive_recording_parse_fail hf]
  | some dt => rw [archive_recording_dry hf]

theorem process_dry_world (g : GitOracle) (recs : List Recording) (w : WorldState)
    (now : DateTime) : (process_recordings g recs true w now).2.2 = w := by
  induction recs generalizing w with
  | nil => rfl
  | cons r rs ih =>
    simp only [process_recordings]
    by_cases hA : is_archived w.store r.source_dir = true
    · rw [if_pos hA]
      exact ih w
    · rw [if_neg hA]
      show (process_recordings g rs true (archive_recording g r true w now).2 now).2.2 = w
      rw [ih, archive_recording_dry_world]

theorem process_dry_results (g : GitOracle) (recs : List Recording) (w : WorldState)
    (now : DateTime) (hp : ∀ r ∈ recs, (fromisoformat r.datetime).isSome) :
    ∀ res ∈ (process_recordings g recs true w now).1, ∃ rec ∈ recs,
      res =
        { success := true, source_dir := rec.source_dir, error := none,
          file_path := compute_file_path rec, commit_sha := none } := by
  induction recs generalizing w with
  | nil => intro res h; simp [process_recordings] at h
  | cons r rs ih =>
    intro res hres
    simp only [process_recordings] at hres
    by_cases hA : is_archived w.store r.source_dir = true
    · rw [if_pos hA] at hres
      obtain ⟨rec, hrec, heq⟩ :=
        ih w (fun x hx => hp x (List.mem_cons_of_mem _ hx)) res hres
      exact ⟨rec, List.mem_cons_of_mem _ hrec, heq⟩
    · rw [if_neg hA] at hres
      rcases List.mem_cons.mp hres with hres | hres
      · obtain ⟨dt, hdt⟩ := Option.isSome_iff_exists.mp (hp r (List.mem_cons_self _ _))
        refine ⟨r, List.mem_cons_self _ _, ?_⟩
        rw [hres, archive_recording_dry hdt]
        simp [compute_file_path, hdt]
      · obtain ⟨rec, hrec, heq⟩ :=
          ih (archive_recording g r true w now).2
            (fun x hx => hp x (List.mem_cons_of_mem _ hx)) res hres
        exact ⟨rec, List.mem_cons_of_mem _ hrec, heq⟩

theorem archive_commits_mono (g : GitOracle) (rec : Recording) (dry : Bool) (w : WorldState)
    (now : DateTime) :
    ∃ ext, (archive_recording g rec dry w now).2.repo.commits = w.repo.commits ++ ext := by
  cases hf : fromisoformat rec.datetime with
  | none => exact ⟨[], by rw [archive_recording_parse_fail hf]; simp⟩
  | some dt =>
    cases dry with
    | true => exact ⟨[], by rw [archive_recording_dry hf]; simp⟩
    | false =>
      cases hg : g (computeFilePathD dt) (build_frontmatter rec now ++ build_bodyD rec dt now)
          (commitMessageFor rec dt) with
      | none => exact ⟨[], by rw [archive_recording_commit_fail hf hg]; simp⟩
      | some sha =>
        by_cases hsha : sha = ""
        · refine ⟨[⟨computeFilePathD dt, build_frontmatter rec now ++ build_bodyD rec dt now,
            commitMessageFor rec dt, sha⟩], ?_⟩
          subst hsha
          unfold archive_recording write_and_commit
          simp only [hf, hg]
          simp
        · exact ⟨[⟨computeFilePathD dt, build_frontmatter rec now ++ build_bodyD rec dt now,
            commitMessageFor rec dt, sha⟩], by rw [archive_recording_commit_ok hf hg hsha]⟩

theorem process_commits_mono (g : GitOracle) (recs : List Recording) (dry : Bool)
    (w : WorldState) (now : DateTime) :
    ∃ ext, (process_recordings g recs dry w now).2.2.repo.commits = w.repo.commits ++ ext := by
  induction recs generalizing w with
  | nil => exact ⟨[], by simp [process_recordings]⟩
  | cons r rs ih =>
    simp only [process_recordings]
    by_cases hA : is_archived w.store r.source_dir = true
    · rw [if_pos hA]
      exact ih w
    · rw [if_neg hA]
      obtain ⟨e1, he1⟩ := archive_commits_mono g r dry w now
      obtain ⟨e2, he2⟩ := ih (archive_recording g r dry w now).2
      exact ⟨e1 ++ e2, by rw [he2, he1, List.append_assoc]⟩

/-- C7: in a non-dry-run loop, at every point (i.e. after any candidate
prefix, since the statement holds for every candidate list and world) a
row present in the store either predates the run or carries the SHA of
a commit actually present in the repository, with a non-empty SHA and
the row's own file path — a recording is marked archived only after
its own commit succeeded. -/
theorem mark_after_commit_spec (g : GitOracle) (recs : List Recording) (w : WorldState)
    (now : DateTime) :
    ∀ row ∈ (process_recordings g recs false w now).2.2.store.archived,
      row ∈ w.store.archived
      ∨ ∃ c ∈ (process_recordings g recs false w now).2.2.repo.commits,
          row.commit_sha = some c.sha ∧ c.sha ≠ "" ∧ row.file_path = c.path := by
  induction recs generalizing w with
  | nil => intro row h; exact Or.inl h
  | cons r rs ih =>
    intro row hrow
    simp only [process_recordings] at hrow ⊢
    by_cases hA : is_archived w.store r.source_dir = true
    · rw [if_pos hA] at hrow ⊢
      exact ih w row hrow
    · rw [if_neg hA] at hrow ⊢
      dsimp only at hrow ⊢
      have hmono := process_commits_mono g rs false (archive_recording g r false w now).2 now
      obtain ⟨ext, hext⟩ := hmono
      rcases ih (archive_recording g r false w now).2 row hrow with hin | ⟨c, hc, hcprop⟩
      · cases hf : fromisoformat r.datetime with
        | none =>
          rw [archive_recording_parse_fail hf] at hin
          exact Or.inl hin
        | some dt =>
          cases hg : g (computeFilePathD dt) (build_frontmatter r now ++ build_bodyD r dt now)
              (commitMessageFor r dt) with
          | none =>
            rw [archive_recording_commit_fail hf hg] at hin
            exact Or.inl hin
          | some sha =>
            by_cases hsha : sha = ""
            · subst hsha
              have hstore : (archive_recording g r false w now).2.store = w.store := by
                unfold archive_recording write_and_commit
                simp only [hf, hg]
                simp
              rw [hstore] at hin
              exact Or.inl hin
            · rw [archive_recording_commit_ok hf hg hsha] at hin hext ⊢
              simp only [mark_archived] at hin
              rcases List.mem_append.mp hin with hold | hnew
              · exact Or.inl (List.mem_filter.mp hold).1
              · have hrow2 := List.mem_singleton.mp hnew
                subst hrow2
                refine Or.inr ⟨⟨computeFilePathD dt,
                  build_frontmatter r now ++ build_bodyD r dt now,
                  commitMessageFor r dt, sha⟩, ?_, rfl, hsha, rfl⟩
                rw [hext]
                simp
      · exact Or.inr ⟨c, hc, hcprop⟩

/-- Witness for C7: a concrete non-dry run over one recording with a
successful commit; the resulting store row is backed by a commit in the
final repository with its SHA and path. -/
theorem mark_after_commit_witness :
    (⟨"1770978710", "2026-02-13T10:31:50", "Meeting", 13647, "2026/02/2026-02-13-10-31-50.md",
        some "abc123", nowA.isoformat⟩ : StoreRow) ∈ emptyWorld.store.archived
  ∨ ∃ c ∈ (process_recordings okOracle [sampleRec "2026-02-13T10:31:50"] false emptyWorld
        nowA).2.2.repo.commits,
      (some "abc123" : Option String) = some c.sha ∧ c.sha ≠ ""
        ∧ "2026/02/2026-02-13-10-31-50.md" = c.path :=
  mark_after_commit_spec okOracle [sampleRec "2026-02-13T10:31:50"] emptyWorld nowA
    ⟨"1770978710", "2026-02-13T10:31:50", "Meeting", 13647, "2026/02/2026-02-13-10-31-50.md",
      some "abc123", nowA.isoformat⟩ (by decide)

/-- C8: per-recording isolation.  The loop always yields one outcome
per candidate (a result or a skip — no oracle outcome can abort the
batch); every failure result carries an error message; and the two
exceptions that can arise while archiving one recording — an
unparseable timestamp raised inside formatting and a failed commit —
are converted into that recording's failure result with the world left
as the failing step left it. -/
theorem per_recording_isolation :
    (∀ (g : GitOracle) (recs : List Recording) (dry : Bool) (w : WorldState) (now : DateTime),
        (process_recordings g recs dry w now).1.length
          + (process_recordings g recs dry w now).2.1 = recs.length)
  ∧ (∀ (g : GitOracle) (recs : List Recording) (dry : Bool) (w : WorldState) (now : DateTime),
        ∀ res ∈ (process_recordings g recs dry w now).1, res.success = false → res.error ≠ none)
  ∧ (∀ (g : GitOracle) (rec : Recording) (dry : Bool) (w : WorldState) (now : DateTime),
        fromisoformat rec.datetime = none →
          archive_recording g rec dry w now
            = (⟨false, rec.source_dir, some ("Invalid isoformat string: " ++ rec.datetime),
                none, none⟩, w))
  ∧ (∀ (g : GitOracle) (rec : Recording) (w : WorldState) (now dt : DateTime),
        fromisoformat rec.datetime = some dt →
        g (computeFilePathD dt) (build_frontmatter rec now ++ build_bodyD rec dt now)
          (commitMessageFor rec dt) = none →
          archive_recording g rec false w now
            = (⟨false, rec.source_dir, some "Failed to commit recording", none, none⟩, w)) :=
  ⟨process_length,
   process_results_error,
   fun _ _ _ _ _ hf => archive_recording_parse_fail hf,
   fun _ _ _ _ _ hf hg => archive_recording_commit_fail hf hg⟩

/-- Witness for C8: with an always-failing oracle, one recording is
converted into a failure result with the store untouched, and a
two-recording batch still yields one outcome per candidate. -/
theorem per_recording_isolation_witness :
    archive_recording failOracle (sampleRec "2026-02-13T10:31:50") false emptyWorld nowA
      = (⟨false, "1770978710", some "Failed to commit recording", none, none⟩, emptyWorld)
  ∧ (process_recordings failOracle
        [sampleRec "2026-02-13T10:31:50", sampleRec "2026-01-05T23:59:01"] false emptyWorld
        nowA).1.length
      + (process_recordings failOracle
          [sampleRec "2026-02-13T10:31:50", sampleRec "2026-01-05T23:59:01"] false emptyWorld
          nowA).2.1 = 2 :=
  ⟨per_recording_isolation.2.2.2 failOracle (sampleRec "2026-02-13T10:31:50") emptyWorld nowA
      ⟨2026, 2, 13, 10, 31, 50, 0⟩ rfl rfl,
   per_recording_isolation.1 failOracle
     [sampleRec "2026-02-13T10:31:50", sampleRec "2026-01-05T23:59:01"] false emptyWorld nowA⟩

theorem countP_succ_fail (l : List ArchiveResult) :
    l.countP (fun r => r.success) + l.countP (fun r => !r.success) = l.length := by
  have h := List.length_eq_countP_add_countP (fun r : ArchiveResult => r.success) l
  have h2 : List.countP (fun a : ArchiveResult => decide ¬ a.success = true) l
      = List.countP (fun r : ArchiveResult => !r.success) l :=
    List.countP_congr (fun a _ => by cases ha : a.success <;> simp [ha])
  omega

/-- C10: every summary a run produces satisfies the counting
invariants: archived plus failed equals the number of per-item results,
and the scanned total equals archived plus failed plus skipped. -/
theorem summary_counts_spec {g : GitOracle} {rootExists : Bool} {entries : List DirEntry}
    {cfg : FiltersConfig} {dry backfill : Bool} {sd mo : Option String} {w0 : WorldState}
    {now : DateTime} {s : ArchiveSummary} {w2 : WorldState}
    (h : run_archiver g rootExists entries cfg dry backfill sd mo w0 now = some (s, w2)) :
    s.archived_count + s.failed_count = s.results.length
  ∧ s.total_recordings = s.archived_count + s.failed_count + s.skipped_count := by
  simp only [run_archiver] at h
  split at h
  · exact absurd h (by simp)
  · split at h
    · exact absurd h (by simp)
    · rename_i since hsince recs hscan
      have hsw := Option.some.inj h
      injection hsw with hs hw
      subst hs
      dsimp only
      constructor
      · exact countP_succ_fail _
      · have h1 := countP_succ_fail (process_recordings g recs dry
          (if dry = true then w0 else { w0 with repo := ensure_up_to_date w0.repo }) now).1
        have h2 := process_length g recs dry
          (if dry = true then w0 else { w0 with repo := ensure_up_to_date w0.repo }) now
        omega

/-- Witness for C10: a concrete non-dry backfill run whose commits all
fail still satisfies both counting invariants. -/
theorem summary_counts_witness :
    run_archiver failOracle true wEntries cfgMeeting false true none none emptyWorld nowA
      = some (⟨3, 0, 3, 0,
          [⟨false, "dirD", some "Failed to commit recording", none, none⟩,
           ⟨false, "dirA", some "Failed to commit recording", none, none⟩,
           ⟨false, "dirB", some "Failed to commit recording", none, none⟩]⟩,
        ⟨⟨[], [⟨nowA.isoformat, 3, 0, 3⟩]⟩, ⟨[], 1, 0⟩⟩)
  ∧ ((0 : Nat) + 3 = 3 ∧ (3 : Nat) = 0 + 3 + 0) :=
  ⟨by decide,
   summary_counts_spec (show run_archiver failOracle true wEntries cfgMeeting false true none
      none emptyWorld nowA
      = some (⟨3, 0, 3, 0,
          [⟨false, "dirD", some "Failed to commit recording", none, none⟩,
           ⟨false, "dirA", some "Failed to commit recording", none, none⟩,
           ⟨false, "dirB", some "Failed to commit recording", none, none⟩]⟩,
        ⟨⟨[], [⟨nowA.isoformat, 3, 0, 3⟩]⟩, ⟨[], 1, 0⟩⟩) from by decide)⟩

/-- C6: a dry run mutates nothing — the returned world (store rows,
commit log, pull and push counters) is exactly the input world — and
when every candidate's metadata has a parseable timestamp (as the data
model requires), every result record is a success record describing the
intended archive path of one scanned recording. -/
theorem dry_run_frame {g : GitOracle} {rootExists : Bool} {entries : List DirEntry}
    {cfg : FiltersConfig} {backfill : Bool} {sd mo : Option String} {w0 : WorldState}
    {now : DateTime} {s : ArchiveSummary} {w2 : WorldState}
    (h : run_archiver g rootExists entries cfg true backfill sd mo w0 now = some (s, w2)) :
    w2 = w0
  ∧ ((∀ e ∈ entries, ∀ rec : Recording, e.meta = some rec → (fromisoformat rec.datetime).isSome) →
      ∀ res ∈ s.results, ∃ rec ∈ parseEntries entries,
        res =
          { success := true, source_dir := rec.source_dir, error := none,
            file_path := compute_file_path rec, commit_sha := none }) := by
  simp only [run_archiver] at h
  split at h
  · exact absurd h (by simp)
  · split at h
    · exact absurd h (by simp)
    · rename_i since hsince recs hscan
      have hsw := Option.some.inj h
      injection hsw with hs hw
      subst hs
      subst hw
      have hmem : ∀ r ∈ recs, r ∈ parseEntries entries := by
        intro r hr
        have h1 := ((scan_spec hscan).1.mem_iff).mp hr
        have h2 := (List.mem_filter.mp h1).1
        cases rootExists with
        | true => simpa using h2
        | false => simp [parseEntries] at h2
      constructor
      · simp [process_dry_world]
      · intro hparse res hres
        have hp2 : ∀ r ∈ recs, (fromisoformat r.datetime).isSome := by
          intro r hr
          obtain ⟨e, he2, hmeta⟩ := List.mem_filterMap.mp (hmem r hr)
          by_cases hd : e.isDir = true
          · rw [if_pos hd] at hmeta
            exact hparse e he2 r hmeta
          · rw [if_neg hd] at hmeta
            exact absurd hmeta (by simp)
        simp only [ite_true, if_true] at hres
        obtain ⟨rec, hrec, heq⟩ := process_dry_results g recs _ now hp2 res (by
          simpa using hres)
        exact ⟨rec, hmem rec hrec, heq⟩

/-- Witness for C6: a concrete dry run over the sample listing returns
the input world untouched and three success records carrying intended
paths. -/
theorem dry_run_frame_witness :
    run_archiver okOracle true wEntries cfgMeeting true true none none emptyWorld nowA
      = some (⟨3, 3, 0, 0,
          [⟨true, "dirD", none, some "2026/01/2026-01-01-00-00-00.md", none⟩,
           ⟨true, "dirA", none, some "2026/02/2026-02-13-10-31-50.md", none⟩,
           ⟨true, "dirB", none, some "2026/02/2026-02-14-08-00-00.md", none⟩]⟩, emptyWorld)
  ∧ ∃ rec ∈ parseEntries wEntries,
      (⟨true, "dirD", none, some "2026/01/2026-01-01-00-00-00.md", none⟩ : ArchiveResult) =
        { success := true, source_dir := rec.source_dir, error := none,
          file_path := compute_file_path rec, commit_sha := none } :=
  ⟨by decide,
   (dry_run_frame (show run_archiver okOracle true wEntries cfgMeeting true true none none
        emptyWorld nowA
      = some (⟨3, 3, 0, 0,
          [⟨true, "dirD", none, some "2026/01/2026-01-01-00-00-00.md", none⟩,
           ⟨true, "dirA", none, some "2026/02/2026-02-13-10-31-50.md", none⟩,
           ⟨true, "dirB", none, some "2026/02/2026-02-14-08-00-00.md", none⟩]⟩, emptyWorld)
      from by decide)).2 (by decide) _ (by decide)⟩
